import Mathlib

/-!
# sertest: serial port throughput tester

A shallow embedding of `src/sertest.c` and theorems about it.

Conventions of the embedding.

* `ssize_t`, `long` and `int` values are mathematical integers (`Int`).  Signed
  overflow is undefined in C and is only reachable after about `2^63` system
  calls or loop iterations, so no wrap-around is modelled.
* `char` values are the byte values as natural numbers (`'A'` is `65`).
* `errno` is an explicit component of the state.  It is changed only by the
  `read` / `write` calls; `poll`, `fprintf` and `strerror_r` leave it alone.
* The device behind `read` / `write` is a script: a function from the number of
  calls issued so far, the requested byte count and the current `errno` to the
  reply of the call.
* The memory around the one-byte buffer `testchar` is a function from the offset
  relative to the buffer start (an `Int`, so that offsets below the buffer are
  representable) to the byte stored there.  Other local variables are separate
  components of the state.
* `readBytes` / `writeBytes` are handed a buffer of `size` bytes.  A call whose
  pointer lies below the start of that buffer is undefined behaviour in C: on the
  real machine it reads or overwrites whatever the stack holds there.  The
  embedding records such a call by setting `World.undefinedBehaviour`; what it
  computes after that is the run of a machine on which the bytes below the
  buffer are writable and unused, and is not a statement about the C program.
* Constants of the system headers (`errno.h`, `termios.h`) are parameters; the
  Linux values are provided for evaluation.
* Loops that may run forever take a fuel argument and return `none` when the
  fuel runs out.
-/

namespace Sertest

/-! ## Constants of `errno.h` -/

/-- Values of the two `errno` constants the program compares against. -/
structure Errnos where
  EWOULDBLOCK : Int
  EAGAIN : Int

/-- Linux: `EAGAIN` is 11 and `EWOULDBLOCK` is defined as `EAGAIN`. -/
def linuxErrnos : Errnos := ⟨11, 11⟩

/-! ## The world the program runs in -/

/-- Lines the program prints on the standard error stream. -/
inductive Msg where
  /-- Line `Failed to read from device descriptor. Error: %s` -/
  | readFailed (errno : Int)
  /-- Line `Error: %s` -/
  | readError (errno : Int)
  /-- Line `Failed to write to serial device descriptor. Error: %s` -/
  | writeFailed (errno : Int)
  /-- Line `Waiting for data...` -/
  | waiting
  /-- Line `Error reading data (%s). Exiting...` -/
  | rxExit (errno : Int)
  /-- Line `Error - unexpected value: %c(0x%02x), should be: %c(0x%02x)` -/
  | unexpected (testchar expected_char : Nat)
  /-- Line `rx: %ld` -/
  | rx (rxcount : Int)
  /-- Line `Error writing data (%s). Exiting...` -/
  | txExit (errno : Int)
  /-- Line `tx: %ld` -/
  | tx (txcount : Int)
  deriving DecidableEq, Repr

/-- One `read` or `write` call as issued by the program: the offset added to the
buffer pointer, the byte count asked for, and the value the call returned. -/
structure Call where
  offset : Int
  count : Int
  result : Int
  deriving DecidableEq, Repr

/-- Reply of the device to a `read` call: the return value, the value of `errno`
after the call, and the bytes it delivers (`data j` is stored at pointer `+ j`
for `j < result`). -/
structure ReadReply where
  result : Int
  errno : Int
  data : Nat → Nat

/-- Reply of the device to a `write` call: the return value (the number of bytes
taken from the pointer on success) and the value of `errno` after the call. -/
structure WriteReply where
  result : Int
  errno : Int

/-- A scripted device for `read`: call index, requested count, `errno` before. -/
abbrev ReadDev := Nat → Int → Int → ReadReply

/-- A scripted device for `write`: call index, requested count, `errno` before. -/
abbrev WriteDev := Nat → Int → Int → WriteReply

/-- State outside the program's local variables. -/
structure World where
  /-- current value of `errno` -/
  errno : Int
  /-- number of `read` / `write` calls issued so far -/
  calls : Nat
  /-- memory around the buffer, indexed by offset from the buffer start -/
  mem : Int → Nat
  /-- every `read` / `write` call issued so far, oldest first -/
  trace : List Call
  /-- every byte the device accepted through `write`, oldest first -/
  wire : List Nat
  /-- lines printed on the standard error stream, oldest first -/
  stderr : List Msg
  /-- a `read` / `write` call was issued with a pointer below the start of the
  buffer: from that call on the behaviour of the C program is undefined -/
  undefinedBehaviour : Bool

/-- Memory after a `read` that returned `result` stored `data` at `offset`. -/
def store (mem : Int → Nat) (offset result : Int) (data : Nat → Nat) : Int → Nat :=
  fun a => if offset ≤ a ∧ a < offset + result then data (a - offset).toNat else mem a

/-- The bytes a `write` that returned `result` took from memory at `offset`. -/
def fetch (mem : Int → Nat) (offset result : Int) : List Nat :=
  (List.range result.toNat).map (fun j => mem (offset + (j : Int)))

/-! ## Byte transport: `readBytes` and `writeBytes` -/

/-- The `while (bytesRead < size)` loop of `readBytes`; `destination` is offset 0
of `World.mem` and points to `size` bytes.  Every call addresses the bytes from
offset `bytesRead` up to `size`, so it stays inside the buffer exactly when
`bytesRead` is not negative; otherwise `undefinedBehaviour` is set. -/
def readBytesLoop (E : Errnos) (dev : ReadDev) (size : Int) :
    Nat → Int → World → Option (Int × World)
  | 0, _, _ => none
  | fuel + 1, bytesRead, w =>
    if bytesRead < size then
      let r := dev w.calls (size - bytesRead) w.errno
      let w1 : World :=
        { w with
          errno := r.errno
          calls := w.calls + 1
          mem := store w.mem bytesRead r.result r.data
          trace := w.trace ++ [⟨bytesRead, size - bytesRead, r.result⟩]
          undefinedBehaviour := w.undefinedBehaviour || decide (bytesRead < 0) }
      if r.result ≤ 0 ∧ r.errno ≠ E.EWOULDBLOCK then
        some (r.result, { w1 with stderr := w1.stderr ++ [Msg.readFailed r.errno] })
      else if r.result ≤ 0 ∧ r.errno ≠ E.EAGAIN then
        some (r.result, { w1 with stderr := w1.stderr ++ [Msg.readError r.errno] })
      else
        readBytesLoop E dev size fuel (bytesRead + r.result) w1
    else
      some (bytesRead, w)

/-- The function `readBytes(deviceFileDescriptor, destination, size)`. -/
def readBytes (E : Errnos) (dev : ReadDev) (fuel : Nat) (size : Int) (w : World) :
    Option (Int × World) :=
  readBytesLoop E dev size fuel 0 w

/-- The `while (bytesWritten < size)` loop of `writeBytes`; `source` is offset 0
of `World.mem` and points to `size` bytes.  Every call addresses the bytes from
offset `bytesWritten` up to `size`, so it stays inside the buffer exactly when
`bytesWritten` is not negative; otherwise `undefinedBehaviour` is set. -/
def writeBytesLoop (E : Errnos) (dev : WriteDev) (size : Int) :
    Nat → Int → World → Option (Int × World)
  | 0, _, _ => none
  | fuel + 1, bytesWritten, w =>
    if bytesWritten < size then
      let r := dev w.calls (size - bytesWritten) w.errno
      let w1 : World :=
        { w with
          errno := r.errno
          calls := w.calls + 1
          wire := w.wire ++ fetch w.mem bytesWritten r.result
          trace := w.trace ++ [⟨bytesWritten, size - bytesWritten, r.result⟩]
          undefinedBehaviour := w.undefinedBehaviour || decide (bytesWritten < 0) }
      if r.result ≤ 0 ∧ r.errno ≠ E.EWOULDBLOCK then
        some (r.result, { w1 with stderr := w1.stderr ++ [Msg.writeFailed r.errno] })
      else
        writeBytesLoop E dev size fuel (bytesWritten + r.result) w1
    else
      some (bytesWritten, w)

/-- The function `writeBytes(deviceFileDescriptor, source, size)`. -/
def writeBytes (E : Errnos) (dev : WriteDev) (fuel : Nat) (size : Int) (w : World) :
    Option (Int × World) :=
  writeBytesLoop E dev size fuel 0 w

/-- A world in which nothing has happened yet: `errno` is 0, memory is zeroed. -/
def World.fresh : World :=
  { errno := 0, calls := 0, mem := fun _ => 0, trace := [], wire := [], stderr := [],
    undefinedBehaviour := false }

/-! ## Device scripts used in the statements -/

/-- Every `read` call from call index `start` on succeeds: asked for `cnt ≥ 1`
bytes it returns between `1` and `cnt`. -/
def ReadSucceeds (dev : ReadDev) (start : Nat) : Prop :=
  ∀ i, start ≤ i → ∀ cnt e, 1 ≤ cnt →
    1 ≤ (dev i cnt e).result ∧ (dev i cnt e).result ≤ cnt

/-- Every `write` call from call index `start` on succeeds: asked for `cnt ≥ 1`
bytes it returns between `1` and `cnt`. -/
def WriteSucceeds (dev : WriteDev) (start : Nat) : Prop :=
  ∀ i, start ≤ i → ∀ cnt e, 1 ≤ cnt →
    1 ≤ (dev i cnt e).result ∧ (dev i cnt e).result ≤ cnt

/-- A `read` script: would-block on the first `N` calls, then every call returns
`k` bytes (at least one, at most the count asked for), each with value `byte`. -/
def blockThenRead (N : Nat) (k : Int) (byte : Nat) : ReadDev :=
  fun i cnt e =>
    if i < N then ⟨-1, 11, fun _ => 0⟩ else ⟨max 1 (min k cnt), e, fun _ => byte⟩

/-- A `write` script: would-block on the first `N` calls, then every call accepts
`k` bytes (at least one, at most the count asked for). -/
def blockThenWrite (N : Nat) (k : Int) : WriteDev :=
  fun i cnt e => if i < N then ⟨-1, 11⟩ else ⟨max 1 (min k cnt), e⟩

/-! ## Pattern engine: the receive and transmit loops of `main` -/

/-- The pattern step `if (++c > 'Z') c = 'A';` on a `char` holding `c`.  The
loops apply it only to letters, so the increment never leaves `char`. -/
def advance (c : Nat) : Nat :=
  if c + 1 > 90 then 65 else c + 1

/-- Whether a loop is still running or was left. -/
inductive Loop where
  /-- the loop body ran to its end; the loop goes on -/
  | continues
  /-- the loop was left (`break`, or the loop test failed) -/
  | exited
  deriving DecidableEq, Repr

/-- Local variables of the receive branch of `main`, and the world.  The variable
`testchar` is the byte at offset 0 of `world.mem`. -/
structure RxState where
  world : World
  rxcount : Int
  expected_char : Nat

/-- Local variables of the transmit branch of `main`, and the world.  The
variable `testchar` is the byte at offset 0 of `world.mem`. -/
structure TxState where
  world : World
  txcount : Int

/-- The transmit loop's `testchar`. -/
def TxState.testchar (s : TxState) : Nat := s.world.mem 0

/-- State at the first test of the receive loop: `rxcount = 0`, `expected_char`
is `'A'`, or `'U'` in single character mode, and `Waiting for data...` has been
printed.  `testchar` is not initialised: it is whatever `w.mem 0` holds. -/
def rxStart (single : Int) (w : World) : RxState :=
  { world := { w with stderr := w.stderr ++ [Msg.waiting] }
    rxcount := 0
    expected_char := if single = 0 then 65 else 85 }

/-- One pass through the body of the receive loop. -/
def rxIteration (E : Errnos) (dev : ReadDev) (single : Int) (fuel : Nat) (s : RxState) :
    Option (Loop × RxState) :=
  match readBytes E dev fuel 1 s.world with
  | none => none
  | some (result, w1) =>
    if result ≠ 1 ∧ w1.errno ≠ E.EWOULDBLOCK then
      some (Loop.exited,
        { s with world := { w1 with stderr := w1.stderr ++ [Msg.rxExit w1.errno] } })
    else
      let rxcount := s.rxcount + 1
      let testchar := w1.mem 0
      let w2 : World :=
        if testchar ≠ s.expected_char then
          { w1 with stderr := w1.stderr ++ [Msg.unexpected testchar s.expected_char] }
        else w1
      let expected_char := if single = 0 then advance s.expected_char else s.expected_char
      let w3 : World :=
        if rxcount.tmod 1000 = 0 then { w2 with stderr := w2.stderr ++ [Msg.rx rxcount] }
        else w2
      some (Loop.continues, { world := w3, rxcount := rxcount, expected_char := expected_char })

/-- The loop `while (MySettings.fd > 0)` of the receive branch, run for at most `n`
passes.  `Loop.continues` in the result says that `n` passes were completed. -/
def rxLoop (E : Errnos) (dev : ReadDev) (single fd : Int) (fuel : Nat) :
    Nat → RxState → Option (Loop × RxState)
  | 0, s => some (Loop.continues, s)
  | n + 1, s =>
    if fd > 0 then
      match rxIteration E dev single fuel s with
      | none => none
      | some (Loop.exited, s1) => some (Loop.exited, s1)
      | some (Loop.continues, s1) => rxLoop E dev single fd fuel n s1
    else
      some (Loop.exited, s)

/-- State at the first test of the transmit loop: `txcount = 0` and `testchar` is
`'A'`, or `'U'` in single character mode. -/
def txStart (single : Int) (w : World) : TxState :=
  { world := { w with mem := Function.update w.mem 0 (if single = 0 then 65 else 85) }
    txcount := 0 }

/-- One pass through the body of the transmit loop. -/
def txIteration (E : Errnos) (dev : WriteDev) (single : Int) (fuel : Nat) (s : TxState) :
    Option (Loop × TxState) :=
  match writeBytes E dev fuel 1 s.world with
  | none => none
  | some (result, w1) =>
    if result ≠ 1 ∧ w1.errno ≠ E.EWOULDBLOCK then
      some (Loop.exited,
        { s with world := { w1 with stderr := w1.stderr ++ [Msg.txExit w1.errno] } })
    else
      let txcount := s.txcount + 1
      let w2 : World :=
        if single = 0 then { w1 with mem := Function.update w1.mem 0 (advance (w1.mem 0)) }
        else w1
      let w3 : World :=
        if txcount.tmod 1000 = 0 then { w2 with stderr := w2.stderr ++ [Msg.tx txcount] }
        else w2
      some (Loop.continues, { world := w3, txcount := txcount })

/-- The loop `while (MySettings.fd > 0)` of the transmit branch, run for at most
`n` passes.  `Loop.continues` in the result says that `n` passes were completed. -/
def txLoop (E : Errnos) (dev : WriteDev) (single fd : Int) (fuel : Nat) :
    Nat → TxState → Option (Loop × TxState)
  | 0, s => some (Loop.continues, s)
  | n + 1, s =>
    if fd > 0 then
      match txIteration E dev single fuel s with
      | none => none
      | some (Loop.exited, s1) => some (Loop.exited, s1)
      | some (Loop.continues, s1) => txLoop E dev single fd fuel n s1
    else
      some (Loop.exited, s)

/-- The `unexpected value` reports among the lines of a standard error stream. -/
def mismatches (out : List Msg) : List Msg :=
  out.filter (fun m => match m with
    | Msg.unexpected _ _ => true
    | _ => false)

/-! ## Port manager: `configureport` -/

/-- The line speed identifiers of `termios.h` that `configureport` selects from. -/
inductive Speed where
  | B9600 | B57600 | B115200 | B230400 | B460800 | B921600
  | B1000000 | B2000000 | B3000000 | B4000000
  /-- any other `speed_t` value, as `tcgetattr` may report -/
  | other (code : Nat)
  deriving DecidableEq, Repr

/-- The `speed_t` value of an identifier in the Linux `termios.h`. -/
def Speed.linuxCode : Speed → Nat
  | Speed.B9600 => 0o15
  | Speed.B57600 => 0o10001
  | Speed.B115200 => 0o10002
  | Speed.B230400 => 0o10003
  | Speed.B460800 => 0o10004
  | Speed.B921600 => 0o10007
  | Speed.B1000000 => 0o10010
  | Speed.B2000000 => 0o10013
  | Speed.B3000000 => 0o10015
  | Speed.B4000000 => 0o10017
  | Speed.other code => code

/-- The `switch (settings->baudrate)` of `configureport`, which sets `MyBaud`. -/
def MyBaud (baudrate : Int) : Speed :=
  if baudrate = 9600 then Speed.B9600
  else if baudrate = 57600 then Speed.B57600
  else if baudrate = 115200 then Speed.B115200
  else if baudrate = 230400 then Speed.B230400
  else if baudrate = 460800 then Speed.B460800
  else if baudrate = 921600 then Speed.B921600
  else if baudrate = 1000000 then Speed.B1000000
  else if baudrate = 2000000 then Speed.B2000000
  else if baudrate = 3000000 then Speed.B3000000
  else if baudrate = 4000000 then Speed.B4000000
  else Speed.B9600

/-- The baud rates that have a `case` of their own in `configureport`. -/
def supportedRates : List Int :=
  [9600, 57600, 115200, 230400, 460800, 921600, 1000000, 2000000, 3000000, 4000000]

/-- Flag masks of `termios.h` used by `configureport`. -/
structure TermiosFlags where
  -- c_cflag
  CSIZE : Nat
  CS8 : Nat
  PARENB : Nat
  PARODD : Nat
  CMSPAR : Nat
  CSTOPB : Nat
  CRTSCTS : Nat
  CLOCAL : Nat
  CREAD : Nat
  -- c_iflag
  IGNPAR : Nat
  PARMRK : Nat
  IGNBRK : Nat
  BRKINT : Nat
  ISTRIP : Nat
  INLCR : Nat
  IGNCR : Nat
  ICRNL : Nat
  IXON : Nat
  IXOFF : Nat
  IXANY : Nat
  INPCK : Nat
  -- c_lflag
  ECHO : Nat
  ECHOE : Nat
  ECHONL : Nat
  ICANON : Nat
  IEXTEN : Nat
  ISIG : Nat
  -- c_oflag
  OCRNL : Nat
  ONLCR : Nat
  ONLRET : Nat
  ONOCR : Nat
  OFILL : Nat
  OLCUC : Nat
  OPOST : Nat

/-- The flag masks of the Linux `termios.h` (generic architecture). -/
def linuxFlags : TermiosFlags :=
  { CSIZE := 0o60, CS8 := 0o60, PARENB := 0o400, PARODD := 0o1000, CMSPAR := 0o10000000000,
    CSTOPB := 0o100, CRTSCTS := 0o20000000000, CLOCAL := 0o4000, CREAD := 0o200,
    IGNPAR := 0o4, PARMRK := 0o10, IGNBRK := 0o1, BRKINT := 0o2, ISTRIP := 0o40,
    INLCR := 0o100, IGNCR := 0o200, ICRNL := 0o400, IXON := 0o2000, IXOFF := 0o10000,
    IXANY := 0o4000, INPCK := 0o20,
    ECHO := 0o10, ECHOE := 0o20, ECHONL := 0o100, ICANON := 0o2, IEXTEN := 0o100000,
    ISIG := 0o1,
    OCRNL := 0o10, ONLCR := 0o4, ONLRET := 0o40, ONOCR := 0o20, OFILL := 0o100,
    OLCUC := 0o2, OPOST := 0o1 }

/-- The fields of `struct termios` that `configureport` touches.  The flag words
are of type `tcflag_t`, an unsigned 32 bit integer. -/
structure Termios where
  c_iflag : Nat
  c_oflag : Nat
  c_cflag : Nat
  c_lflag : Nat
  VMIN : Nat
  VTIME : Nat
  ispeed : Speed
  ospeed : Speed

/-- The assignment `x |= m` on a `tcflag_t`. -/
def orFlags (x m : Nat) : Nat := (x ||| m) % 2 ^ 32

/-- The assignment `x &= ~m` on a `tcflag_t`. -/
def clearFlags (x m : Nat) : Nat := x &&& ((2 ^ 32 - 1) ^^^ (m % 2 ^ 32))

/-- The attribute set `configureport` hands to `tcsetattr`, computed from the
one `tcgetattr` returned (`t0`), in the order of the statements of the source. -/
def configureportAttrs (K : TermiosFlags) (baudrate : Int) (t0 : Termios) : Termios :=
  -- cfsetispeed / cfsetospeed
  let t := { t0 with ispeed := MyBaud baudrate, ospeed := MyBaud baudrate }
  -- Set character length
  let t := { t with c_cflag := clearFlags t.c_cflag K.CSIZE }
  let t := { t with c_cflag := orFlags t.c_cflag K.CS8 }
  -- No parity
  let t := { t with c_cflag := clearFlags t.c_cflag K.PARENB }
  let t := { t with c_cflag := orFlags t.c_cflag K.PARODD }
  -- Stick parity flag
  let t := { t with c_cflag := orFlags t.c_cflag K.CMSPAR }
  -- ignores parity errors and passes bytes regardless
  let t := { t with c_iflag := orFlags t.c_iflag K.IGNPAR }
  -- causes parity errors to be 'marked' in the input stream
  let t := { t with c_iflag := orFlags t.c_iflag K.PARMRK }
  -- One stop bit
  let t := { t with c_cflag := clearFlags t.c_cflag K.CSTOPB }
  -- No hardware flow control
  let t := { t with c_cflag := clearFlags t.c_cflag K.CRTSCTS }
  -- Raw input, no echo
  let lmask := K.ECHO ||| K.ECHOE ||| K.ECHONL ||| K.ICANON ||| K.IEXTEN ||| K.ISIG
  let t := { t with c_lflag := clearFlags t.c_lflag lmask }
  let imask := K.IGNBRK ||| K.BRKINT ||| K.PARMRK ||| K.ISTRIP ||| K.INLCR ||| K.IGNCR |||
    K.ICRNL ||| K.IXON ||| K.IXOFF ||| K.IXANY ||| K.INPCK
  let t := { t with c_iflag := clearFlags t.c_iflag imask }
  -- Raw output
  let omask := K.OCRNL ||| K.ONLCR ||| K.ONLRET ||| K.ONOCR ||| K.OFILL ||| K.OLCUC ||| K.OPOST
  let t := { t with c_oflag := clearFlags t.c_oflag omask }
  -- Wait timeout for each character
  let t := { t with VMIN := 1 }
  let t := { t with VTIME := 0 }
  -- Enable the receiver and set local mode
  { t with c_cflag := orFlags t.c_cflag (K.CLOCAL ||| K.CREAD) }

/-- The function `configureport`: the attribute set passed to `tcsetattr` and the
value returned, `0` when `tcsetattr` returned `0` (given as `tcsetattrResult`)
and `-1` otherwise. -/
def configureport (K : TermiosFlags) (baudrate : Int) (t0 : Termios) (tcsetattrResult : Int) :
    Termios × Int :=
  (configureportAttrs K baudrate t0, if tcsetattrResult ≠ 0 then -1 else 0)

/-- An attribute set with every flag word zero, as `memset` leaves it. -/
def Termios.zero : Termios :=
  { c_iflag := 0, c_oflag := 0, c_cflag := 0, c_lflag := 0, VMIN := 0, VTIME := 0,
    ispeed := Speed.other 0, ospeed := Speed.other 0 }

/-! ## Reference functions and further device scripts -/

/-- A `read` script whose every call fails with `EIO` (5). -/
def failingRead : ReadDev := fun _ _ _ => ⟨-1, 5, fun _ => 0⟩

/-- A `write` script whose every call fails with `EIO` (5). -/
def failingWrite : WriteDev := fun _ _ _ => ⟨-1, 5⟩

/-- The pattern character after `i` passes, starting from `c`. -/
def expectedAt (single : Int) (c : Nat) (i : Nat) : Nat :=
  if single = 0 then advance^[i] c else c

/-- The mismatch reports of `n` passes of the receive loop that starts with
`expected_char = c` and reads the bytes `f j, f (j + 1), ...`. -/
def reportsFrom (single : Int) (f : Nat → Nat) : Nat → Nat → Nat → List Msg
  | _, _, 0 => []
  | c, j, n + 1 =>
    (if f j ≠ c then [Msg.unexpected (f j) c] else []) ++
      reportsFrom single f (if single = 0 then advance c else c) (j + 1) n

/-- The bytes `n` passes of the transmit loop write when it starts with
`testchar = c`. -/
def patternFrom (single : Int) : Nat → Nat → List Nat
  | _, 0 => []
  | c, n + 1 => c :: patternFrom single (if single = 0 then advance c else c) n

/-- The bytes a run of the transmit loop put on the wire, given the length of the
wire before the run. -/
def wireOf (before : Nat) : Option (Loop × TxState) → List Nat
  | some (_, st) => st.world.wire.drop before
  | none => []

/-- A `read` script fed from a list: call `i` delivers the `i`-th byte. -/
def loopback (bytes : List Nat) : ReadDev :=
  fun i _ e => ⟨1, e, fun _ => bytes.getD i 0⟩

/-- A `read` script delivering the rotation with position `k` replaced by `b`. -/
def corruptedStream (k b : Nat) : ReadDev :=
  fun i _ e => ⟨1, e, fun _ => if i = k then b else 65 + i % 26⟩

/-! ## Theorems on the byte transport -/

theorem blockThenRead_succeeds (N : Nat) (k : Int) (byte : Nat) (start : Nat) (h : N ≤ start) :
    ReadSucceeds (blockThenRead N k byte) start := by
  intro i hi cnt e hc
  have hn : ¬ i < N := by omega
  simp only [blockThenRead, hn, if_false]
  omega

theorem blockThenWrite_succeeds (N : Nat) (k : Int) (start : Nat) (h : N ≤ start) :
    WriteSucceeds (blockThenWrite N k) start := by
  intro i hi cnt e hc
  have hn : ¬ i < N := by omega
  simp only [blockThenWrite, hn, if_false]
  omega

set_option maxRecDepth 100000 in
/-- C1 (byte transport retry), evaluated where it fails: length 1, 304 would-block
replies, then a device that hands over as many bytes as it is asked for.  Each
would-block reply takes 1 off `bytesRead` (`bytesWritten`), so the call after
them is `read(fd, destination - 304, 305)`: its pointer lies 304 bytes below the
one-byte buffer and 305 bytes are stored through it.  From the first call with a
pointer below the buffer the behaviour of the program is undefined, so it has no
guaranteed return value; `writeBytes` issues the same call. -/
theorem retry_after_wouldblock_undefined :
    (readBytes linuxErrnos (blockThenRead 304 10000 65) 306 1 World.fresh).map
        (fun p => (p.2.undefinedBehaviour, p.2.calls, p.2.trace.getLast?)) =
        some (true, 305, some ⟨-304, 305, 305⟩) ∧
      (writeBytes linuxErrnos (blockThenWrite 304 10000) 306 1 World.fresh).map
        (fun p => (p.2.undefinedBehaviour, p.2.calls, p.2.trace.getLast?)) =
        some (true, 305, some ⟨-304, 305, 305⟩) := by
  constructor <;> rfl

/-- C2 (exact transfer), evaluated where it fails: length 1, one would-block reply,
then a device that hands over as many bytes as it is asked for.  `readBytes` adds
the `-1` of the would-block reply to `bytesRead`, so its second `read` uses buffer
offset `-1` and asks for 2 bytes; it returns 1 after 2 bytes were transferred.  In
the transmit loop the same happens in `writeBytes`: one pass writes two bytes, the
byte below `testchar` (here `0`) and `'A'`. -/
theorem transfer_after_wouldblock_leaves_buffer :
    (readBytes linuxErrnos (blockThenRead 1 2 65) 3 1 World.fresh).map
        (fun p => (p.1, p.2.trace)) = some (1, [⟨0, 1, -1⟩, ⟨-1, 2, 2⟩]) ∧
      (txIteration linuxErrnos (blockThenWrite 1 2) 0 3 (txStart 0 World.fresh)).map
        (fun p => (p.1, p.2.world.trace, p.2.world.wire, p.2.txcount)) =
        some (Loop.continues, [⟨0, 1, -1⟩, ⟨-1, 2, 2⟩], [0, 65], 1) := by
  constructor <;> rfl

/-- C3 (byte transport fatal path).  For every requested length `≥ 1`, when the
first `read` / `write` returns a result `≤ 0` with `errno` different from
`EWOULDBLOCK`, `readBytes` / `writeBytes` return that result, which is not the
requested length, after exactly one call. -/
theorem readBytes_writeBytes_fatal (E : Errnos) (rdev : ReadDev) (wdev : WriteDev)
    (length : Int) (w : World) (fuel : Nat) (hlen : 1 ≤ length)
    (hr : (rdev w.calls length w.errno).result ≤ 0 ∧
      (rdev w.calls length w.errno).errno ≠ E.EWOULDBLOCK)
    (hw : (wdev w.calls length w.errno).result ≤ 0 ∧
      (wdev w.calls length w.errno).errno ≠ E.EWOULDBLOCK) :
    (∃ w1, readBytes E rdev (fuel + 1) length w =
        some ((rdev w.calls length w.errno).result, w1) ∧
        w1.calls = w.calls + 1 ∧
        w1.trace = w.trace ++ [⟨0, length, (rdev w.calls length w.errno).result⟩]) ∧
      (rdev w.calls length w.errno).result ≠ length ∧
      (∃ w1, writeBytes E wdev (fuel + 1) length w =
        some ((wdev w.calls length w.errno).result, w1) ∧
        w1.calls = w.calls + 1 ∧
        w1.trace = w.trace ++ [⟨0, length, (wdev w.calls length w.errno).result⟩]) ∧
      (wdev w.calls length w.errno).result ≠ length := by
  have h0 : (0 : Int) < length := by omega
  refine ⟨?_, by omega, ?_, by omega⟩
  · unfold readBytes readBytesLoop
    simp only [h0, if_true, Int.sub_zero, hr, ne_eq, not_false_eq_true, and_self]
    exact ⟨_, rfl, rfl, rfl⟩
  · unfold writeBytes writeBytesLoop
    simp only [h0, if_true, Int.sub_zero, hw, ne_eq, not_false_eq_true, and_self]
    exact ⟨_, rfl, rfl, rfl⟩

/-- Witness for C3: length 4 on a device whose first call fails with `EIO`. -/
theorem readBytes_writeBytes_fatal_witness :
    (∃ w1, readBytes linuxErrnos failingRead 1 4 World.fresh = some (-1, w1) ∧
        w1.calls = 1 ∧ w1.trace = [⟨0, 4, -1⟩]) ∧
      (-1 : Int) ≠ 4 ∧
      (∃ w1, writeBytes linuxErrnos failingWrite 1 4 World.fresh = some (-1, w1) ∧
        w1.calls = 1 ∧ w1.trace = [⟨0, 4, -1⟩]) ∧
      (-1 : Int) ≠ 4 :=
  readBytes_writeBytes_fatal linuxErrnos failingRead failingWrite 4 World.fresh 0 (by decide)
    ⟨by decide, by decide⟩ ⟨by decide, by decide⟩

/-! ## Theorems on `configureport` -/

theorem clearFlags_and_eq_zero (x m P : Nat) (h : m &&& P = P) :
    clearFlags x m &&& P = 0 := by
  apply Nat.eq_of_testBit_eq
  intro i
  have hb := congrArg (fun n => Nat.testBit n i) h
  simp only [Nat.testBit_and] at hb
  simp only [clearFlags, Nat.testBit_and, Nat.testBit_xor, Nat.testBit_mod_two_pow,
    Nat.testBit_two_pow_sub_one, Nat.zero_testBit]
  by_cases h32 : i < 32 <;> cases hP : Nat.testBit P i <;> simp_all

/-- C8 (baud mapper).  Each of the ten supported rates selects its own speed
identifier, two different supported rates select different identifiers (also as
Linux `speed_t` values), and every other rate, among them 1200, 0 and all
negative rates, selects `B9600`.  `MyBaud` is a total function: it has a value
for every integer and no error result. -/
theorem MyBaud_table :
    (MyBaud 9600 = Speed.B9600 ∧ MyBaud 57600 = Speed.B57600 ∧ MyBaud 115200 = Speed.B115200 ∧
      MyBaud 230400 = Speed.B230400 ∧ MyBaud 460800 = Speed.B460800 ∧
      MyBaud 921600 = Speed.B921600 ∧ MyBaud 1000000 = Speed.B1000000 ∧
      MyBaud 2000000 = Speed.B2000000 ∧ MyBaud 3000000 = Speed.B3000000 ∧
      MyBaud 4000000 = Speed.B4000000) ∧
    (∀ r1 r2 : Int, r1 ∈ supportedRates → r2 ∈ supportedRates → r1 ≠ r2 →
      MyBaud r1 ≠ MyBaud r2 ∧ (MyBaud r1).linuxCode ≠ (MyBaud r2).linuxCode) ∧
    (∀ r : Int, r ∉ supportedRates → MyBaud r = Speed.B9600) ∧
    MyBaud 1200 = Speed.B9600 ∧ MyBaud 0 = Speed.B9600 ∧
    (∀ r : Int, r < 0 → MyBaud r = Speed.B9600) ∧
    (∀ (K : TermiosFlags) (r : Int) (t0 : Termios) (res : Int),
      (configureport K r t0 res).1.ispeed = MyBaud r ∧
      (configureport K r t0 res).1.ospeed = MyBaud r) := by
  refine ⟨by decide, ?_, ?_, by decide, by decide, ?_, ?_⟩
  · intro r1 r2 h1 h2 hne
    simp only [supportedRates, List.mem_cons, List.mem_singleton, List.not_mem_nil,
      or_false] at h1 h2
    rcases h1 with rfl | rfl | rfl | rfl | rfl | rfl | rfl | rfl | rfl | rfl <;>
      rcases h2 with rfl | rfl | rfl | rfl | rfl | rfl | rfl | rfl | rfl | rfl <;>
      first
        | exact absurd rfl hne
        | exact ⟨by decide, by decide⟩
  · intro r hr
    simp only [supportedRates, List.mem_cons, List.mem_singleton, List.not_mem_nil,
      or_false, not_or] at hr
    obtain ⟨h1, h2, h3, h4, h5, h6, h7, h8, h9, h10⟩ := hr
    simp [MyBaud, h1, h2, h3, h4, h5, h6, h7, h8, h9, h10]
  · intro r hr
    have h1 : r ≠ 9600 := by omega
    have h2 : r ≠ 57600 := by omega
    have h3 : r ≠ 115200 := by omega
    have h4 : r ≠ 230400 := by omega
    have h5 : r ≠ 460800 := by omega
    have h6 : r ≠ 921600 := by omega
    have h7 : r ≠ 1000000 := by omega
    have h8 : r ≠ 2000000 := by omega
    have h9 : r ≠ 3000000 := by omega
    have h10 : r ≠ 4000000 := by omega
    simp [MyBaud, h1, h2, h3, h4, h5, h6, h7, h8, h9, h10]
  · intro K r t0 res
    exact ⟨rfl, rfl⟩

/-- Witness for C8: the unsupported rate 38400 and the pair 9600, 4000000. -/
theorem MyBaud_table_witness :
    (38400 : Int) ∉ supportedRates ∧ MyBaud 38400 = Speed.B9600 ∧
      (9600 : Int) ∈ supportedRates ∧ (4000000 : Int) ∈ supportedRates ∧
      MyBaud 9600 ≠ MyBaud 4000000 ∧ MyBaud (-5) = Speed.B9600 :=
  ⟨by decide, MyBaud_table.2.2.1 38400 (by decide), by decide, by decide,
    (MyBaud_table.2.1 9600 4000000 (by decide) (by decide) (by decide)).1,
    MyBaud_table.2.2.2.2.2.1 (-5) (by decide)⟩

/-- C9 (parity marking), as the code behaves: whatever attribute set `tcgetattr`
returned and whatever the values of the header constants, the input flag word
handed to `tcsetattr` has no bit of `PARMRK` set.  The statement
`c_iflag |= (PARMRK)` is undone by the later `c_iflag &= ~(... | PARMRK | ...)`.
With the Linux constants (`PARMRK = 0o10`) the word therefore never has parity
marking enabled, not even when the device had it enabled before. -/
theorem configureport_clears_PARMRK :
    (∀ (K : TermiosFlags) (baudrate : Int) (t0 : Termios) (res : Int),
      (configureport K baudrate t0 res).1.c_iflag &&& K.PARMRK = 0) ∧
    (∀ (baudrate : Int) (t0 : Termios) (res : Int),
      (configureport linuxFlags baudrate t0 res).1.c_iflag &&& linuxFlags.PARMRK ≠
        linuxFlags.PARMRK) ∧
    (configureport linuxFlags 9600 Termios.zero 0).1.c_iflag = linuxFlags.IGNPAR := by
  have key : ∀ (K : TermiosFlags) (baudrate : Int) (t0 : Termios) (res : Int),
      (configureport K baudrate t0 res).1.c_iflag &&& K.PARMRK = 0 := by
    intro K baudrate t0 res
    simp only [configureport, configureportAttrs]
    apply clearFlags_and_eq_zero
    apply Nat.eq_of_testBit_eq
    intro i
    simp only [Nat.testBit_and, Nat.testBit_or]
    cases Nat.testBit K.PARMRK i <;> simp
  refine ⟨key, ?_, by decide⟩
  intro baudrate t0 res
  rw [key]
  decide

/-! ## Lemmas on the loops of `main` -/

theorem writeBytesLoop_mem (E : Errnos) (dev : WriteDev) (size : Int) :
    ∀ (fuel : Nat) (b : Int) (w : World) (r : Int) (w1 : World),
      writeBytesLoop E dev size fuel b w = some (r, w1) → w1.mem = w.mem := by
  intro fuel
  induction fuel with
  | zero => intro b w r w1 h; simp [writeBytesLoop] at h
  | succ fuel ih =>
    intro b w r w1 h
    unfold writeBytesLoop at h
    by_cases hlt : b < size
    · simp only [hlt, if_true] at h
      split_ifs at h with h1
      · simp only [Option.some.injEq, Prod.mk.injEq] at h
        obtain ⟨rfl, rfl⟩ := h
        rfl
      · have hrec := ih _ _ r w1 h
        exact hrec
    · simp only [hlt, if_false, Option.some.injEq, Prod.mk.injEq] at h
      obtain ⟨rfl, rfl⟩ := h
      rfl

theorem rxIteration_eq (E : Errnos) (dev : ReadDev) (single : Int) (fuel : Nat)
    (s : RxState) (l : Loop) (s1 : RxState)
    (h : rxIteration E dev single fuel s = some (l, s1)) :
    ∃ r w1, readBytes E dev fuel 1 s.world = some (r, w1) ∧
      ((r ≠ 1 ∧ w1.errno ≠ E.EWOULDBLOCK ∧ l = Loop.exited ∧ s1.rxcount = s.rxcount ∧
          s1.expected_char = s.expected_char ∧
          s1.world.stderr = w1.stderr ++ [Msg.rxExit w1.errno]) ∨
        (¬ (r ≠ 1 ∧ w1.errno ≠ E.EWOULDBLOCK) ∧ l = Loop.continues ∧
          s1.rxcount = s.rxcount + 1 ∧
          s1.expected_char = (if single = 0 then advance s.expected_char else s.expected_char) ∧
          s1.world.calls = w1.calls ∧
          s1.world.stderr = w1.stderr ++
            ((if w1.mem 0 ≠ s.expected_char then [Msg.unexpected (w1.mem 0) s.expected_char]
              else []) ++
            (if (s.rxcount + 1).tmod 1000 = 0 then [Msg.rx (s.rxcount + 1)] else [])))) := by
  unfold rxIteration at h
  cases hrd : readBytes E dev fuel 1 s.world with
  | none => simp [hrd] at h
  | some p =>
    obtain ⟨r, w1⟩ := p
    refine ⟨r, w1, rfl, ?_⟩
    simp only [hrd] at h
    by_cases hc : r ≠ 1 ∧ w1.errno ≠ E.EWOULDBLOCK
    · rw [if_pos hc] at h
      simp only [Option.some.injEq, Prod.mk.injEq] at h
      obtain ⟨rfl, rfl⟩ := h
      exact Or.inl ⟨hc.1, hc.2, rfl, rfl, rfl, rfl⟩
    · rw [if_neg hc] at h
      simp only [Option.some.injEq, Prod.mk.injEq] at h
      obtain ⟨rfl, rfl⟩ := h
      refine Or.inr ⟨hc, rfl, rfl, rfl, ?_, ?_⟩
      · dsimp only
        split_ifs <;> rfl
      · dsimp only
        split_ifs <;> simp

theorem txIteration_eq (E : Errnos) (dev : WriteDev) (single : Int) (fuel : Nat)
    (s : TxState) (l : Loop) (s1 : TxState)
    (h : txIteration E dev single fuel s = some (l, s1)) :
    ∃ r w1, writeBytes E dev fuel 1 s.world = some (r, w1) ∧
      ((r ≠ 1 ∧ w1.errno ≠ E.EWOULDBLOCK ∧ l = Loop.exited ∧ s1.txcount = s.txcount ∧
          s1.testchar = s.testchar ∧
          s1.world.stderr = w1.stderr ++ [Msg.txExit w1.errno]) ∨
        (¬ (r ≠ 1 ∧ w1.errno ≠ E.EWOULDBLOCK) ∧ l = Loop.continues ∧
          s1.txcount = s.txcount + 1 ∧
          s1.testchar = (if single = 0 then advance s.testchar else s.testchar) ∧
          s1.world.calls = w1.calls ∧ s1.world.wire = w1.wire ∧
          s1.world.stderr = w1.stderr ++
            (if (s.txcount + 1).tmod 1000 = 0 then [Msg.tx (s.txcount + 1)] else []))) := by
  unfold txIteration at h
  cases hwr : writeBytes E dev fuel 1 s.world with
  | none => simp [hwr] at h
  | some p =>
    obtain ⟨r, w1⟩ := p
    have hmem : w1.mem = s.world.mem := writeBytesLoop_mem E dev 1 fuel 0 s.world r w1 hwr
    refine ⟨r, w1, rfl, ?_⟩
    simp only [hwr] at h
    by_cases hc : r ≠ 1 ∧ w1.errno ≠ E.EWOULDBLOCK
    · rw [if_pos hc] at h
      simp only [Option.some.injEq, Prod.mk.injEq] at h
      obtain ⟨rfl, rfl⟩ := h
      exact Or.inl ⟨hc.1, hc.2, rfl, rfl, by simp [TxState.testchar, hmem], rfl⟩
    · rw [if_neg hc] at h
      simp only [Option.some.injEq, Prod.mk.injEq] at h
      obtain ⟨rfl, rfl⟩ := h
      refine Or.inr ⟨hc, rfl, rfl, ?_, ?_, ?_, ?_⟩
      · simp only [TxState.testchar]
        split_ifs <;> simp [hmem]
      · dsimp only
        split_ifs <;> rfl
      · dsimp only
        split_ifs <;> rfl
      · dsimp only
        split_ifs <;> simp

theorem rxLoop_succ_continues (E : Errnos) (dev : ReadDev) (single fd : Int) (fuel n : Nat)
    (s0 s : RxState) (h : rxLoop E dev single fd fuel (n + 1) s0 = some (Loop.continues, s)) :
    0 < fd ∧ ∃ s1, rxIteration E dev single fuel s0 = some (Loop.continues, s1) ∧
      rxLoop E dev single fd fuel n s1 = some (Loop.continues, s) := by
  unfold rxLoop at h
  by_cases hfd : fd > 0
  · simp only [hfd, if_true] at h
    cases hit : rxIteration E dev single fuel s0 with
    | none => simp [hit] at h
    | some p =>
      obtain ⟨l, s1⟩ := p
      cases l with
      | continues => simp only [hit] at h; exact ⟨hfd, s1, rfl, h⟩
      | exited => simp [hit] at h
  · simp [hfd] at h

theorem txLoop_succ_continues (E : Errnos) (dev : WriteDev) (single fd : Int) (fuel n : Nat)
    (s0 s : TxState) (h : txLoop E dev single fd fuel (n + 1) s0 = some (Loop.continues, s)) :
    0 < fd ∧ ∃ s1, txIteration E dev single fuel s0 = some (Loop.continues, s1) ∧
      txLoop E dev single fd fuel n s1 = some (Loop.continues, s) := by
  unfold txLoop at h
  by_cases hfd : fd > 0
  · simp only [hfd, if_true] at h
    cases hit : txIteration E dev single fuel s0 with
    | none => simp [hit] at h
    | some p =>
      obtain ⟨l, s1⟩ := p
      cases l with
      | continues => simp only [hit] at h; exact ⟨hfd, s1, rfl, h⟩
      | exited => simp [hit] at h
  · simp [hfd] at h

theorem rxLoop_continues_inv (E : Errnos) (dev : ReadDev) (single fd : Int) (fuel : Nat) :
    ∀ (n : Nat) (s0 s : RxState),
      rxLoop E dev single fd fuel n s0 = some (Loop.continues, s) →
      s.rxcount = s0.rxcount + n ∧
        s.expected_char =
          (if single = 0 then advance^[n] s0.expected_char else s0.expected_char) := by
  intro n
  induction n with
  | zero =>
    intro s0 s h
    simp only [rxLoop, Option.some.injEq, Prod.mk.injEq, true_and] at h
    subst h
    simp
  | succ n ih =>
    intro s0 s h
    obtain ⟨_, s1, hit, hrest⟩ := rxLoop_succ_continues E dev single fd fuel n s0 s h
    obtain ⟨r, w1, _, hcase⟩ := rxIteration_eq E dev single fuel s0 _ s1 hit
    obtain ⟨hc, hx⟩ := ih s1 s hrest
    rcases hcase with ⟨_, _, hl, _⟩ | ⟨_, _, hcnt, hexp, _⟩
    · cases hl
    · rw [hc, hx, hcnt, hexp]
      refine ⟨by push_cast; omega, ?_⟩
      split_ifs
      · rw [Function.iterate_succ_apply]
      · rfl

theorem txLoop_continues_inv (E : Errnos) (dev : WriteDev) (single fd : Int) (fuel : Nat) :
    ∀ (n : Nat) (s0 s : TxState),
      txLoop E dev single fd fuel n s0 = some (Loop.continues, s) →
      s.txcount = s0.txcount + n ∧
        s.testchar = (if single = 0 then advance^[n] s0.testchar else s0.testchar) := by
  intro n
  induction n with
  | zero =>
    intro s0 s h
    simp only [txLoop, Option.some.injEq, Prod.mk.injEq, true_and] at h
    subst h
    simp
  | succ n ih =>
    intro s0 s h
    obtain ⟨_, s1, hit, hrest⟩ := txLoop_succ_continues E dev single fd fuel n s0 s h
    obtain ⟨r, w1, _, hcase⟩ := txIteration_eq E dev single fuel s0 _ s1 hit
    obtain ⟨hc, hx⟩ := ih s1 s hrest
    rcases hcase with ⟨_, _, hl, _⟩ | ⟨_, _, hcnt, hexp, _⟩
    · cases hl
    · rw [hc, hx, hcnt, hexp]
      refine ⟨by push_cast; omega, ?_⟩
      split_ifs
      · rw [Function.iterate_succ_apply]
      · rfl

theorem advance_iterate (n : Nat) : advance^[n] 65 = 65 + n % 26 := by
  induction n with
  | zero => rfl
  | succ n ih =>
    rw [Function.iterate_succ_apply', ih]
    unfold advance
    split_ifs <;> omega

/-! ## Loops on a device whose every call succeeds -/

theorem mismatches_append (a b : List Msg) :
    mismatches (a ++ b) = mismatches a ++ mismatches b := by
  simp [mismatches]

theorem readBytes_one (E : Errnos) (dev : ReadDev) (fuel : Nat) (w : World) (hfuel : 2 ≤ fuel)
    (h : (dev w.calls 1 w.errno).result = 1) :
    readBytes E dev fuel 1 w = some (1,
      { w with
        errno := (dev w.calls 1 w.errno).errno
        calls := w.calls + 1
        mem := store w.mem 0 1 (dev w.calls 1 w.errno).data
        trace := w.trace ++ [⟨0, 1, 1⟩] }) := by
  obtain ⟨f, rfl⟩ : ∃ f, fuel = f + 2 := ⟨fuel - 2, by omega⟩
  simp [readBytes, readBytesLoop, h]

theorem writeBytes_one (E : Errnos) (dev : WriteDev) (fuel : Nat) (w : World) (hfuel : 2 ≤ fuel)
    (h : (dev w.calls 1 w.errno).result = 1) :
    writeBytes E dev fuel 1 w = some (1,
      { w with
        errno := (dev w.calls 1 w.errno).errno
        calls := w.calls + 1
        wire := w.wire ++ [w.mem 0]
        trace := w.trace ++ [⟨0, 1, 1⟩] }) := by
  obtain ⟨f, rfl⟩ : ∃ f, fuel = f + 2 := ⟨fuel - 2, by omega⟩
  have hf : fetch w.mem 0 1 = [w.mem 0] := rfl
  simp [writeBytes, writeBytesLoop, h, hf]

theorem rxIteration_fed (E : Errnos) (dev : ReadDev) (single : Int) (fuel : Nat) (s : RxState)
    (hfuel : 2 ≤ fuel) (h : (dev s.world.calls 1 s.world.errno).result = 1) :
    ∃ s1, rxIteration E dev single fuel s = some (Loop.continues, s1) ∧
      s1.rxcount = s.rxcount + 1 ∧
      s1.expected_char = (if single = 0 then advance s.expected_char else s.expected_char) ∧
      s1.world.calls = s.world.calls + 1 ∧
      mismatches s1.world.stderr = mismatches s.world.stderr ++
        (if (dev s.world.calls 1 s.world.errno).data 0 ≠ s.expected_char then
          [Msg.unexpected ((dev s.world.calls 1 s.world.errno).data 0) s.expected_char]
        else []) := by
  have hrd := readBytes_one E dev fuel s.world hfuel h
  cases hit : rxIteration E dev single fuel s with
  | none => simp [rxIteration, hrd] at hit
  | some p =>
    obtain ⟨l, s1⟩ := p
    obtain ⟨r, w1, hrd1, hcase⟩ := rxIteration_eq E dev single fuel s l s1 hit
    rw [hrd] at hrd1
    simp only [Option.some.injEq, Prod.mk.injEq] at hrd1
    obtain ⟨rfl, rfl⟩ := hrd1
    rcases hcase with ⟨hne, _⟩ | ⟨_, rfl, hcnt, hexp, hcalls, herr⟩
    · exact absurd rfl hne
    · refine ⟨s1, rfl, hcnt, hexp, hcalls, ?_⟩
      have hm : store s.world.mem 0 1 (dev s.world.calls 1 s.world.errno).data 0 =
          (dev s.world.calls 1 s.world.errno).data 0 := by simp [store]
      rw [herr]
      dsimp only
      rw [hm]
      simp only [mismatches_append]
      split_ifs <;> simp [mismatches]

theorem txIteration_fed (E : Errnos) (dev : WriteDev) (single : Int) (fuel : Nat) (s : TxState)
    (hfuel : 2 ≤ fuel) (h : (dev s.world.calls 1 s.world.errno).result = 1) :
    ∃ s1, txIteration E dev single fuel s = some (Loop.continues, s1) ∧
      s1.txcount = s.txcount + 1 ∧
      s1.testchar = (if single = 0 then advance s.testchar else s.testchar) ∧
      s1.world.calls = s.world.calls + 1 ∧
      s1.world.wire = s.world.wire ++ [s.testchar] := by
  have hwr := writeBytes_one E dev fuel s.world hfuel h
  cases hit : txIteration E dev single fuel s with
  | none => simp [txIteration, hwr] at hit
  | some p =>
    obtain ⟨l, s1⟩ := p
    obtain ⟨r, w1, hwr1, hcase⟩ := txIteration_eq E dev single fuel s l s1 hit
    rw [hwr] at hwr1
    simp only [Option.some.injEq, Prod.mk.injEq] at hwr1
    obtain ⟨rfl, rfl⟩ := hwr1
    rcases hcase with ⟨hne, _⟩ | ⟨_, rfl, hcnt, hexp, hcalls, hwire, _⟩
    · exact absurd rfl hne
    · exact ⟨s1, rfl, hcnt, hexp, hcalls, hwire⟩

theorem rxLoop_fed (E : Errnos) (dev : ReadDev) (single fd : Int) (fuel : Nat) (f : Nat → Nat)
    (hfd : 0 < fd) (hfuel : 2 ≤ fuel) :
    ∀ (n j : Nat) (s : RxState), ReadSucceeds dev s.world.calls →
      (∀ i, i < n → ∀ cnt e, (dev (s.world.calls + i) cnt e).data 0 = f (j + i)) →
      ∃ s1, rxLoop E dev single fd fuel n s = some (Loop.continues, s1) ∧
        s1.rxcount = s.rxcount + n ∧
        s1.expected_char = expectedAt single s.expected_char n ∧
        mismatches s1.world.stderr =
          mismatches s.world.stderr ++ reportsFrom single f s.expected_char j n := by
  intro n
  induction n with
  | zero =>
    intro j s _ _
    exact ⟨s, rfl, by simp, by simp [expectedAt], by simp [reportsFrom]⟩
  | succ n ih =>
    intro j s hok hdata
    have hres : (dev s.world.calls 1 s.world.errno).result = 1 := by
      have := hok s.world.calls (Nat.le_refl _) 1 s.world.errno (by decide)
      omega
    obtain ⟨s1, hit, hcnt, hexp, hcalls, hmis⟩ :=
      rxIteration_fed E dev single fuel s hfuel hres
    have hd0 := hdata 0 (Nat.succ_pos _) 1 s.world.errno
    simp only [Nat.add_zero] at hd0
    obtain ⟨s2, hrun, hcnt2, hexp2, hmis2⟩ := ih (j + 1) s1
      (by intro i hi; exact hok i (by omega))
      (by
        intro i hi cnt e
        have := hdata (i + 1) (by omega) cnt e
        rw [hcalls]
        have e1 : s.world.calls + 1 + i = s.world.calls + (i + 1) := by omega
        have e2 : j + 1 + i = j + (i + 1) := by omega
        rw [e1, e2]
        exact this)
    refine ⟨s2, ?_, ?_, ?_, ?_⟩
    · unfold rxLoop
      simp only [gt_iff_lt, hfd, if_true, hit]
      exact hrun
    · rw [hcnt2, hcnt]; push_cast; omega
    · rw [hexp2, hexp]
      unfold expectedAt
      split_ifs
      · rw [Function.iterate_succ_apply]
      · rfl
    · rw [hmis2, hmis, hd0, hexp]
      simp only [reportsFrom, List.append_assoc]

theorem txLoop_fed (E : Errnos) (dev : WriteDev) (single fd : Int) (fuel : Nat)
    (hfd : 0 < fd) (hfuel : 2 ≤ fuel) :
    ∀ (n : Nat) (s : TxState), WriteSucceeds dev s.world.calls →
      ∃ s1, txLoop E dev single fd fuel n s = some (Loop.continues, s1) ∧
        s1.txcount = s.txcount + n ∧
        s1.world.wire = s.world.wire ++ patternFrom single s.testchar n := by
  intro n
  induction n with
  | zero =>
    intro s _
    exact ⟨s, rfl, by simp, by simp [patternFrom]⟩
  | succ n ih =>
    intro s hok
    have hres : (dev s.world.calls 1 s.world.errno).result = 1 := by
      have := hok s.world.calls (Nat.le_refl _) 1 s.world.errno (by decide)
      omega
    obtain ⟨s1, hit, hcnt, hexp, hcalls, hwire⟩ :=
      txIteration_fed E dev single fuel s hfuel hres
    obtain ⟨s2, hrun, hcnt2, hwire2⟩ := ih s1 (by intro i hi; exact hok i (by omega))
    refine ⟨s2, ?_, ?_, ?_⟩
    · unfold txLoop
      simp only [gt_iff_lt, hfd, if_true, hit]
      exact hrun
    · rw [hcnt2, hcnt]; push_cast; omega
    · rw [hwire2, hwire, hexp]
      simp only [patternFrom, List.append_assoc, List.singleton_append]

theorem rxLoop_single_inv (E : Errnos) (dev : ReadDev) (single fd : Int) (fuel : Nat)
    (hs : single ≠ 0) :
    ∀ (n : Nat) (s0 : RxState) (l : Loop) (s : RxState),
      rxLoop E dev single fd fuel n s0 = some (l, s) → s.expected_char = s0.expected_char := by
  intro n
  induction n with
  | zero =>
    intro s0 l s h
    simp only [rxLoop, Option.some.injEq, Prod.mk.injEq] at h
    rw [← h.2]
  | succ n ih =>
    intro s0 l s h
    unfold rxLoop at h
    by_cases hfd : fd > 0
    · simp only [hfd, if_true] at h
      cases hit : rxIteration E dev single fuel s0 with
      | none => simp [hit] at h
      | some p =>
        obtain ⟨l1, s1⟩ := p
        obtain ⟨r, w1, _, hcase⟩ := rxIteration_eq E dev single fuel s0 l1 s1 hit
        have h1 : s1.expected_char = s0.expected_char := by
          rcases hcase with ⟨_, _, _, _, hx, _⟩ | ⟨_, _, _, hx, _⟩
          · exact hx
          · rw [hx, if_neg hs]
        cases l1 with
        | continues =>
          simp only [hit] at h
          rw [ih s1 l s h, h1]
        | exited =>
          simp only [hit, Option.some.injEq, Prod.mk.injEq] at h
          rw [← h.2, h1]
    · simp only [hfd, if_false, Option.some.injEq, Prod.mk.injEq] at h
      rw [← h.2]

theorem txLoop_single_inv (E : Errnos) (dev : WriteDev) (single fd : Int) (fuel : Nat)
    (hs : single ≠ 0) :
    ∀ (n : Nat) (s0 : TxState) (l : Loop) (s : TxState),
      txLoop E dev single fd fuel n s0 = some (l, s) → s.testchar = s0.testchar := by
  intro n
  induction n with
  | zero =>
    intro s0 l s h
    simp only [txLoop, Option.some.injEq, Prod.mk.injEq] at h
    rw [← h.2]
  | succ n ih =>
    intro s0 l s h
    unfold txLoop at h
    by_cases hfd : fd > 0
    · simp only [hfd, if_true] at h
      cases hit : txIteration E dev single fuel s0 with
      | none => simp [hit] at h
      | some p =>
        obtain ⟨l1, s1⟩ := p
        obtain ⟨r, w1, _, hcase⟩ := txIteration_eq E dev single fuel s0 l1 s1 hit
        have h1 : s1.testchar = s0.testchar := by
          rcases hcase with ⟨_, _, _, _, hx, _⟩ | ⟨_, _, _, hx, _⟩
          · exact hx
          · rw [hx, if_neg hs]
        cases l1 with
        | continues =>
          simp only [hit] at h
          rw [ih s1 l s h, h1]
        | exited =>
          simp only [hit, Option.some.injEq, Prod.mk.injEq] at h
          rw [← h.2, h1]
    · simp only [hfd, if_false, Option.some.injEq, Prod.mk.injEq] at h
      rw [← h.2]

theorem rxLoop_runs (E : Errnos) (dev : ReadDev) (single fd : Int) (fuel : Nat)
    (hfd : 0 < fd) (hfuel : 2 ≤ fuel) :
    ∀ (n : Nat) (s : RxState), ReadSucceeds dev s.world.calls →
      ∃ s1, rxLoop E dev single fd fuel n s = some (Loop.continues, s1) := by
  intro n
  induction n with
  | zero => intro s _; exact ⟨s, rfl⟩
  | succ n ih =>
    intro s hok
    have hres : (dev s.world.calls 1 s.world.errno).result = 1 := by
      have := hok s.world.calls (Nat.le_refl _) 1 s.world.errno (by decide)
      omega
    obtain ⟨s1, hit, _, _, hcalls, _⟩ := rxIteration_fed E dev single fuel s hfuel hres
    obtain ⟨s2, hrun⟩ := ih s1 (by intro i hi; exact hok i (by omega))
    refine ⟨s2, ?_⟩
    unfold rxLoop
    simp only [gt_iff_lt, hfd, if_true, hit]
    exact hrun

theorem txLoop_runs (E : Errnos) (dev : WriteDev) (single fd : Int) (fuel : Nat)
    (hfd : 0 < fd) (hfuel : 2 ≤ fuel) (n : Nat) (s : TxState)
    (hok : WriteSucceeds dev s.world.calls) :
    ∃ s1, txLoop E dev single fd fuel n s = some (Loop.continues, s1) := by
  obtain ⟨s1, h, _⟩ := txLoop_fed E dev single fd fuel hfd hfuel n s hok
  exact ⟨s1, h⟩

theorem txStart_testchar (single : Int) (w : World) :
    (txStart single w).testchar = if single = 0 then 65 else 85 := by
  simp [txStart, TxState.testchar]

/-! ## Theorems on the pattern engine -/

/-- C4 (pattern advance, rotating mode).  Starting at `'A'` (65), `n` advances give
the `(n mod 26)`-th letter, `'Z'` (90) after 25 and `'A'` again after 26.  In the
receive and in the transmit loop with `single = 0`, after any `n` completed passes
the pattern character is that letter, for every device: which bytes were read,
and whether they matched, plays no part.  When every call of the device succeeds
the loops do complete `n` passes. -/
theorem pattern_advance_rotating (E : Errnos) (rdev : ReadDev) (wdev : WriteDev) (fd : Int)
    (fuel n : Nat) (w : World) :
    advance^[n] 65 = 65 + n % 26 ∧ advance^[25] 65 = 90 ∧ advance^[26] 65 = 65 ∧
      (∀ s, rxLoop E rdev 0 fd fuel n (rxStart 0 w) = some (Loop.continues, s) →
        s.expected_char = 65 + n % 26) ∧
      (∀ s, txLoop E wdev 0 fd fuel n (txStart 0 w) = some (Loop.continues, s) →
        s.testchar = 65 + n % 26) ∧
      (0 < fd → 2 ≤ fuel → ReadSucceeds rdev w.calls →
        ∃ s, rxLoop E rdev 0 fd fuel n (rxStart 0 w) = some (Loop.continues, s) ∧
          s.expected_char = 65 + n % 26) ∧
      (0 < fd → 2 ≤ fuel → WriteSucceeds wdev w.calls →
        ∃ s, txLoop E wdev 0 fd fuel n (txStart 0 w) = some (Loop.continues, s) ∧
          s.testchar = 65 + n % 26) := by
  have hrx : ∀ s, rxLoop E rdev 0 fd fuel n (rxStart 0 w) = some (Loop.continues, s) →
      s.expected_char = 65 + n % 26 := by
    intro s h
    have := (rxLoop_continues_inv E rdev 0 fd fuel n _ s h).2
    rw [this, if_pos rfl]
    exact advance_iterate n
  have htx : ∀ s, txLoop E wdev 0 fd fuel n (txStart 0 w) = some (Loop.continues, s) →
      s.testchar = 65 + n % 26 := by
    intro s h
    have := (txLoop_continues_inv E wdev 0 fd fuel n _ s h).2
    rw [this, if_pos rfl, txStart_testchar, if_pos rfl]
    exact advance_iterate n
  refine ⟨advance_iterate n, advance_iterate 25, advance_iterate 26, hrx, htx, ?_, ?_⟩
  · intro hfd hfuel hok
    obtain ⟨s, hs⟩ := rxLoop_runs E rdev 0 fd fuel hfd hfuel n (rxStart 0 w) hok
    exact ⟨s, hs, hrx s hs⟩
  · intro hfd hfuel hok
    obtain ⟨s, hs⟩ := txLoop_runs E wdev 0 fd fuel hfd hfuel n (txStart 0 w) hok
    exact ⟨s, hs, htx s hs⟩

/-- C10 (single character mode).  With `single ≠ 0` the pattern character of the
receive and of the transmit loop is `'U'` (85) before the first pass and after
any number of passes, whatever the device delivers and however the run ends.
When every call of the device succeeds the loops do complete `n` passes. -/
theorem single_mode_constant (E : Errnos) (rdev : ReadDev) (wdev : WriteDev) (single fd : Int)
    (fuel n : Nat) (w : World) (hs : single ≠ 0) :
    (rxStart single w).expected_char = 85 ∧ (txStart single w).testchar = 85 ∧
      (∀ l s, rxLoop E rdev single fd fuel n (rxStart single w) = some (l, s) →
        s.expected_char = 85) ∧
      (∀ l s, txLoop E wdev single fd fuel n (txStart single w) = some (l, s) →
        s.testchar = 85) ∧
      (0 < fd → 2 ≤ fuel → ReadSucceeds rdev w.calls →
        ∃ s, rxLoop E rdev single fd fuel n (rxStart single w) = some (Loop.continues, s) ∧
          s.expected_char = 85) ∧
      (0 < fd → 2 ≤ fuel → WriteSucceeds wdev w.calls →
        ∃ s, txLoop E wdev single fd fuel n (txStart single w) = some (Loop.continues, s) ∧
          s.testchar = 85) := by
  have h1 : (rxStart single w).expected_char = 85 := by simp [rxStart, hs]
  have h2 : (txStart single w).testchar = 85 := by rw [txStart_testchar, if_neg hs]
  have hrx : ∀ l s, rxLoop E rdev single fd fuel n (rxStart single w) = some (l, s) →
      s.expected_char = 85 := by
    intro l s h
    rw [rxLoop_single_inv E rdev single fd fuel hs n _ l s h, h1]
  have htx : ∀ l s, txLoop E wdev single fd fuel n (txStart single w) = some (l, s) →
      s.testchar = 85 := by
    intro l s h
    rw [txLoop_single_inv E wdev single fd fuel hs n _ l s h, h2]
  refine ⟨h1, h2, hrx, htx, ?_, ?_⟩
  · intro hfd hfuel hok
    obtain ⟨s, hs1⟩ := rxLoop_runs E rdev single fd fuel hfd hfuel n (rxStart single w) hok
    exact ⟨s, hs1, hrx _ s hs1⟩
  · intro hfd hfuel hok
    obtain ⟨s, hs1⟩ := txLoop_runs E wdev single fd fuel hfd hfuel n (txStart single w) hok
    exact ⟨s, hs1, htx _ s hs1⟩

theorem expectedAt_succ (single : Int) (c i : Nat) :
    expectedAt single c (i + 1) = expectedAt single (if single = 0 then advance c else c) i := by
  unfold expectedAt
  split_ifs
  · rw [Function.iterate_succ_apply]
  · rfl

theorem expectedAt_start (single : Int) (i : Nat) :
    expectedAt single (if single = 0 then 65 else 85) i =
      if single = 0 then 65 + i % 26 else 85 := by
  unfold expectedAt
  split_ifs
  · exact advance_iterate i
  · rfl

theorem reportsFrom_match (single : Int) (f : Nat → Nat) :
    ∀ (n c j : Nat), (∀ i, i < n → f (j + i) = expectedAt single c i) →
      reportsFrom single f c j n = [] := by
  intro n
  induction n with
  | zero => intro c j _; rfl
  | succ n ih =>
    intro c j h
    have h0 : f j = c := by
      have := h 0 (Nat.succ_pos _)
      simpa [expectedAt] using this
    unfold reportsFrom
    rw [ih]
    · simp [h0]
    · intro i hi
      have := h (i + 1) (by omega)
      rw [expectedAt_succ] at this
      rw [← this]
      congr 1
      omega

theorem patternFrom_length (single : Int) :
    ∀ (n c : Nat), (patternFrom single c n).length = n := by
  intro n
  induction n with
  | zero => intro c; rfl
  | succ n ih => intro c; simp [patternFrom, ih]

theorem patternFrom_getD (single : Int) :
    ∀ (n c i : Nat), i < n → (patternFrom single c n).getD i 0 = expectedAt single c i := by
  intro n
  induction n with
  | zero => intro c i h; omega
  | succ n ih =>
    intro c i h
    cases i with
    | zero => simp [patternFrom, expectedAt]
    | succ i =>
      rw [expectedAt_succ, ← ih _ i (by omega)]
      simp [patternFrom]

theorem patternFrom_eq_map (single : Int) (n c : Nat) :
    patternFrom single c n = (List.range n).map (fun i => expectedAt single c i) := by
  apply List.ext_getElem
  · simp [patternFrom_length]
  · intro i h1 h2
    have hi : i < n := by simpa [patternFrom_length] using h1
    have := patternFrom_getD single n c i hi
    rw [List.getD_eq_getElem _ _ h1] at this
    simp [this]

theorem reportsFrom_corrupt (k b : Nat) (hb : b ≠ 65 + k % 26) (f : Nat → Nat)
    (hf : ∀ i, f i = if i = k then b else 65 + i % 26) :
    ∀ (n j : Nat), reportsFrom 0 f (65 + j % 26) j n =
      if j ≤ k ∧ k < j + n then [Msg.unexpected b (65 + k % 26)] else [] := by
  intro n
  induction n with
  | zero =>
    intro j
    have : ¬ (j ≤ k ∧ k < j + 0) := by omega
    simp [reportsFrom, this]
  | succ n ih =>
    intro j
    have hadv : advance (65 + j % 26) = 65 + (j + 1) % 26 := by
      unfold advance
      split_ifs <;> omega
    unfold reportsFrom
    rw [if_pos rfl, hadv, ih (j + 1), hf j]
    by_cases hjk : j = k
    · subst hjk
      have h1 : ¬ (j + 1 ≤ j ∧ j < j + 1 + n) := by omega
      have h2 : j ≤ j ∧ j < j + (n + 1) := by omega
      simp [hb, h1, h2]
    · by_cases hin : j ≤ k ∧ k < j + (n + 1)
      · have h1 : j + 1 ≤ k ∧ k < j + 1 + n := by omega
        simp [hjk, hin, h1]
      · have h1 : ¬ (j + 1 ≤ k ∧ k < j + 1 + n) := by omega
        simp [hjk, hin, h1]

theorem rxStart_mismatches (single : Int) (w : World) :
    mismatches (rxStart single w).world.stderr = mismatches w.stderr := by
  simp [rxStart, mismatches]

/-- C5 (end to end agreement).  Let both sides use the same mode (both rotating or
both single character), let every `write` and every `read` succeed, and let the
`i`-th `read` deliver the `i`-th byte the first `n` passes of the transmit loop
wrote.  Then both loops complete `n` passes, the bytes written are
`A, B, ..., Z, A, ...` (rotating) or `U, U, ...` (single), `txcount` and `rxcount`
are both `n`, and the receive loop has printed no mismatch report. -/
theorem end_to_end_agreement (E : Errnos) (wdev : WriteDev) (rdev : ReadDev)
    (singleT singleR fdT fdR : Int) (fuelT fuelR n : Nat) (wt wr : World)
    (hmode : singleT = 0 ↔ singleR = 0) (hfdT : 0 < fdT) (hfdR : 0 < fdR)
    (hfuelT : 2 ≤ fuelT) (hfuelR : 2 ≤ fuelR)
    (hw : WriteSucceeds wdev wt.calls) (hr : ReadSucceeds rdev wr.calls)
    (hdata : ∀ i, i < n → ∀ cnt e, (rdev (wr.calls + i) cnt e).data 0 =
      (wireOf wt.wire.length
        (txLoop E wdev singleT fdT fuelT n (txStart singleT wt))).getD i 0) :
    ∃ st sr,
      txLoop E wdev singleT fdT fuelT n (txStart singleT wt) = some (Loop.continues, st) ∧
      rxLoop E rdev singleR fdR fuelR n (rxStart singleR wr) = some (Loop.continues, sr) ∧
      st.world.wire = wt.wire ++
        (List.range n).map (fun i => if singleT = 0 then 65 + i % 26 else 85) ∧
      st.txcount = n ∧ sr.rxcount = n ∧
      mismatches sr.world.stderr = mismatches wr.stderr := by
  obtain ⟨st, htx, htc, hwire⟩ := txLoop_fed E wdev singleT fdT fuelT hfdT hfuelT n
    (txStart singleT wt) hw
  rw [txStart_testchar] at hwire
  have hwire0 : (txStart singleT wt).world.wire = wt.wire := rfl
  rw [hwire0] at hwire
  have hbytes : wireOf wt.wire.length (txLoop E wdev singleT fdT fuelT n (txStart singleT wt)) =
      patternFrom singleT (if singleT = 0 then 65 else 85) n := by
    rw [htx]
    simp [wireOf, hwire]
  rw [hbytes] at hdata
  obtain ⟨sr, hrx, hrc, _, hmis⟩ := rxLoop_fed E rdev singleR fdR fuelR
    (fun i => (patternFrom singleT (if singleT = 0 then 65 else 85) n).getD i 0) hfdR hfuelR
    n 0 (rxStart singleR wr) hr
    (by
      intro i hi cnt e
      rw [Nat.zero_add]
      exact hdata i hi cnt e)
  have hnone : reportsFrom singleR
      (fun i => (patternFrom singleT (if singleT = 0 then 65 else 85) n).getD i 0)
      (rxStart singleR wr).expected_char 0 n = [] := by
    apply reportsFrom_match
    intro i hi
    rw [Nat.zero_add]
    show (patternFrom singleT (if singleT = 0 then 65 else 85) n).getD i 0 = _
    rw [patternFrom_getD singleT n _ i hi, expectedAt_start]
    have hstart : (rxStart singleR wr).expected_char = if singleR = 0 then 65 else 85 := rfl
    rw [hstart, expectedAt_start]
    by_cases h0 : singleT = 0
    · rw [if_pos h0, if_pos (hmode.1 h0)]
    · rw [if_neg h0, if_neg (fun h => h0 (hmode.2 h))]
  refine ⟨st, sr, htx, hrx, ?_, ?_, ?_, ?_⟩
  · rw [hwire, patternFrom_eq_map]
    congr 1
    apply List.map_congr_left
    intro i _
    exact expectedAt_start singleT i
  · simpa [txStart] using htc
  · simpa [rxStart] using hrc
  · rw [hmis, hnone, List.append_nil, rxStart_mismatches]

/-- C6 (a mismatch is not fatal and does not shift the pattern).  Rotating mode,
every `read` succeeds, and the stream is the rotation `A, B, ..., Z, A, ...` with
the byte at position `k < n` replaced by some `b` that differs from the letter
expected there.  Then for every `m ≤ n` the receive loop completes `m` passes,
`rxcount = m`, the expected character after them is the `(m mod 26)`-th letter, as
in an uncorrupted run, and the mismatch reports printed so far are: none while
`m ≤ k`, and exactly the one report naming `b` and the letter expected at `k`
once position `k` has been read; so after all `n` bytes there is exactly that one
report. -/
theorem single_corruption_one_report (E : Errnos) (rdev : ReadDev) (fd : Int) (fuel n k b : Nat)
    (wr : World) (hfd : 0 < fd) (hfuel : 2 ≤ fuel) (hk : k < n) (hb : b ≠ 65 + k % 26)
    (hr : ReadSucceeds rdev wr.calls)
    (hdata : ∀ i, i < n → ∀ cnt e,
      (rdev (wr.calls + i) cnt e).data 0 = if i = k then b else 65 + i % 26) :
    (∀ m, m ≤ n → ∃ sm,
      rxLoop E rdev 0 fd fuel m (rxStart 0 wr) = some (Loop.continues, sm) ∧
      sm.rxcount = m ∧ sm.expected_char = 65 + m % 26 ∧
      mismatches sm.world.stderr =
        mismatches wr.stderr ++ (if k < m then [Msg.unexpected b (65 + k % 26)] else [])) ∧
    (∃ sn, rxLoop E rdev 0 fd fuel n (rxStart 0 wr) = some (Loop.continues, sn) ∧
      mismatches sn.world.stderr = mismatches wr.stderr ++ [Msg.unexpected b (65 + k % 26)]) := by
  have main : ∀ m, m ≤ n → ∃ sm,
      rxLoop E rdev 0 fd fuel m (rxStart 0 wr) = some (Loop.continues, sm) ∧
      sm.rxcount = m ∧ sm.expected_char = 65 + m % 26 ∧
      mismatches sm.world.stderr =
        mismatches wr.stderr ++ (if k < m then [Msg.unexpected b (65 + k % 26)] else []) := ?_
  · refine ⟨main, ?_⟩
    obtain ⟨sn, h1, _, _, h4⟩ := main n (Nat.le_refl _)
    rw [if_pos hk] at h4
    exact ⟨sn, h1, h4⟩
  intro m hm
  obtain ⟨sm, hrx, hrc, hexp, hmis⟩ := rxLoop_fed E rdev 0 fd fuel
    (fun i => if i = k then b else 65 + i % 26) hfd hfuel m 0 (rxStart 0 wr) hr
    (by
      intro i hi cnt e
      rw [Nat.zero_add]
      exact hdata i (by omega) cnt e)
  have hstart : (rxStart 0 wr).expected_char = 65 + 0 % 26 := rfl
  refine ⟨sm, hrx, by simpa [rxStart] using hrc, ?_, ?_⟩
  · rw [hexp]
    have := expectedAt_start 0 m
    simpa [rxStart] using this
  · rw [hmis, hstart, reportsFrom_corrupt k b hb _ (fun _ => rfl) m 0, rxStart_mismatches]
    by_cases hkm : k < m
    · have : 0 ≤ k ∧ k < 0 + m := by omega
      rw [if_pos this, if_pos hkm]
    · have : ¬ (0 ≤ k ∧ k < 0 + m) := by omega
      rw [if_neg this, if_neg hkm]

/-! ## Concrete runs -/

theorem loopback_succeeds (bytes : List Nat) (start : Nat) :
    ReadSucceeds (loopback bytes) start := by
  intro i _ cnt e hc
  simp only [loopback]
  omega

theorem corruptedStream_succeeds (k b start : Nat) :
    ReadSucceeds (corruptedStream k b) start := by
  intro i _ cnt e hc
  simp only [corruptedStream]
  omega

/-- Witness for C4: 27 passes on a device that only ever delivers `'X'`, so every
received byte is a mismatch; the pattern is at `'B'` (66) in both loops. -/
theorem pattern_advance_rotating_witness :
    (∃ s, rxLoop linuxErrnos (blockThenRead 0 1 88) 0 3 2 27 (rxStart 0 World.fresh) =
        some (Loop.continues, s) ∧ s.expected_char = 65 + 27 % 26) ∧
    (∃ s, txLoop linuxErrnos (blockThenWrite 0 1) 0 3 2 27 (txStart 0 World.fresh) =
        some (Loop.continues, s) ∧ s.testchar = 65 + 27 % 26) :=
  ⟨(pattern_advance_rotating linuxErrnos (blockThenRead 0 1 88) (blockThenWrite 0 1) 3 2 27
      World.fresh).2.2.2.2.2.1 (by decide) (by decide)
      (blockThenRead_succeeds 0 1 88 _ (Nat.zero_le _)),
    (pattern_advance_rotating linuxErrnos (blockThenRead 0 1 88) (blockThenWrite 0 1) 3 2 27
      World.fresh).2.2.2.2.2.2 (by decide) (by decide)
      (blockThenWrite_succeeds 0 1 _ (Nat.zero_le _))⟩

/-- Witness for C10: single character mode, 5 passes on a device that delivers
`'X'` only. -/
theorem single_mode_constant_witness :
    (1 : Int) ≠ 0 ∧
    (∃ s, rxLoop linuxErrnos (blockThenRead 0 1 88) 1 3 2 5 (rxStart 1 World.fresh) =
        some (Loop.continues, s) ∧ s.expected_char = 85) ∧
    (∃ s, txLoop linuxErrnos (blockThenWrite 0 1) 1 3 2 5 (txStart 1 World.fresh) =
        some (Loop.continues, s) ∧ s.testchar = 85) :=
  ⟨by decide,
    (single_mode_constant linuxErrnos (blockThenRead 0 1 88) (blockThenWrite 0 1) 1 3 2 5
      World.fresh (by decide)).2.2.2.2.1 (by decide) (by decide)
      (blockThenRead_succeeds 0 1 88 _ (Nat.zero_le _)),
    (single_mode_constant linuxErrnos (blockThenRead 0 1 88) (blockThenWrite 0 1) 1 3 2 5
      World.fresh (by decide)).2.2.2.2.2 (by decide) (by decide)
      (blockThenWrite_succeeds 0 1 _ (Nat.zero_le _))⟩

/-- Witness for C5: 26 bytes in rotating mode through a loopback. -/
theorem end_to_end_agreement_witness :
    ∃ st sr,
      txLoop linuxErrnos (blockThenWrite 0 1) 0 3 2 26 (txStart 0 World.fresh) =
        some (Loop.continues, st) ∧
      rxLoop linuxErrnos
        (loopback (wireOf 0
          (txLoop linuxErrnos (blockThenWrite 0 1) 0 3 2 26 (txStart 0 World.fresh))))
        0 4 2 26 (rxStart 0 World.fresh) = some (Loop.continues, sr) ∧
      st.world.wire = World.fresh.wire ++
        (List.range 26).map (fun i => if (0 : Int) = 0 then 65 + i % 26 else 85) ∧
      st.txcount = (26 : Nat) ∧ sr.rxcount = (26 : Nat) ∧
      mismatches sr.world.stderr = mismatches World.fresh.stderr :=
  end_to_end_agreement linuxErrnos (blockThenWrite 0 1)
    (loopback (wireOf 0
      (txLoop linuxErrnos (blockThenWrite 0 1) 0 3 2 26 (txStart 0 World.fresh))))
    0 0 3 4 2 2 26 World.fresh World.fresh Iff.rfl (by decide) (by decide) (by decide)
    (by decide) (blockThenWrite_succeeds 0 1 _ (Nat.zero_le _)) (loopback_succeeds _ _)
    (by
      intro i _ cnt e
      show List.getD _ (0 + i) 0 = _
      rw [Nat.zero_add]
      rfl)

/-- Witness for C6: 30 bytes, the byte at position 3 replaced by `'!'` (33). -/
theorem single_corruption_one_report_witness :
    (∀ m, m ≤ 30 → ∃ sm,
      rxLoop linuxErrnos (corruptedStream 3 33) 0 3 2 m (rxStart 0 World.fresh) =
        some (Loop.continues, sm) ∧
      sm.rxcount = m ∧ sm.expected_char = 65 + m % 26 ∧
      mismatches sm.world.stderr =
        mismatches World.fresh.stderr ++
          (if 3 < m then [Msg.unexpected 33 (65 + 3 % 26)] else [])) ∧
    (∃ sn, rxLoop linuxErrnos (corruptedStream 3 33) 0 3 2 30 (rxStart 0 World.fresh) =
        some (Loop.continues, sn) ∧
      mismatches sn.world.stderr =
        mismatches World.fresh.stderr ++ [Msg.unexpected 33 (65 + 3 % 26)]) :=
  single_corruption_one_report linuxErrnos (corruptedStream 3 33) 3 2 30 3 33 World.fresh
    (by decide) (by decide) (by decide) (by decide) (corruptedStream_succeeds 3 33 _)
    (by intro i _ cnt e; simp [corruptedStream, World.fresh])

end Sertest
